import Mathlib

/-!
Verification development for `pulse.py`, a G-code rewriter that inserts fan
pulse triplets during depositing moves and strips temperature commands.

The embedding is shallow and follows the source line by line:
* numeric values are modelled in exact arithmetic — parsed coordinates and
  interpolation over `ℚ`, the planar distance `math.hypot` and the running
  distance accumulator over `ℝ` (a square root is irrational in general);
* Python strings are modelled as `String` / `List Char`, with the regular
  expressions of the source replaced by explicit scanning functions whose
  semantics (leftmost match, greedy groups with backtracking) are spelled
  out in the definitions below;
* the stateful `process_gcode` loop is a fold over the input line list that
  threads the tracked position and the accumulator explicitly.
-/

namespace Pulse

/-! ### Python string primitives -/

/-- Characters removed by Python `str.strip()`:
space, tab, newline, carriage return, vertical tab, form feed. -/
def isPySpace (c : Char) : Bool :=
  c == ' ' || c == '\t' || c == '\n' || c == '\r' || c == '\x0b' || c == '\x0c'

/-- Python `line.strip()` on a character list: drop leading and trailing
whitespace. -/
def stripL (l : List Char) : List Char :=
  ((l.dropWhile isPySpace).reverse.dropWhile isPySpace).reverse

/-- Case-sensitive "starts with" test, pattern first.
Models Python `str.startswith`. -/
def prefixL : List Char → List Char → Bool
  | [], _ => true
  | _ :: _, [] => false
  | p :: ps, c :: cs => p == c && prefixL ps cs

/-- Case-sensitive substring containment: Python `pat in s`. -/
def subL (pat : List Char) : List Char → Bool
  | [] => prefixL pat []
  | c :: cs => prefixL pat (c :: cs) || subL pat cs

/-! ### Command classification (source lines 9-10 and 49-52)

The source tests `stripped.startswith(('G0', 'G1'))` — a case-sensitive
prefix check — and `'E' not in stripped` — a case-sensitive character
membership test.  Temperature lines are matched by the regular expression
`^(M104|M109)` compiled with `re.IGNORECASE` and applied with `.match` to
the stripped line, i.e. a case-insensitive 4-character prefix check. -/

/-- The case-sensitive motion-prefix test `stripped.startswith(('G0', 'G1'))`. -/
def isMotionL (s : List Char) : Bool :=
  prefixL "G0".data s || prefixL "G1".data s

/-- The case-sensitive membership test `'E' in stripped`. -/
def containsEL (s : List Char) : Bool :=
  s.any fun c => c == 'E'

/-- A line is routed to the distance pipeline iff both tests pass
(source line 52, negated). -/
def isMotionEL (s : List Char) : Bool :=
  isMotionL s && containsEL s

/-- The case-insensitive thermal prefix test `temperature_re.match(stripped)`
with `temperature_re = re.compile(r"^(M104|M109)", re.IGNORECASE)`. -/
def isThermalL (s : List Char) : Bool :=
  ((s.take 4).map Char.toUpper == "M104".data) ||
  ((s.take 4).map Char.toUpper == "M109".data)

/-! ### The coordinate extractor (source lines 12-18)

`extract_coords` runs `re.search(f"{axis}(-?\d*\.?\d+)", line)` for each
axis letter.  `re.search` returns the leftmost position at which the whole
pattern matches; an axis letter whose following text is rejected by the
numeric group is skipped and the scan continues.  The group
`-?\d*\.?\d+` is matched greedily with backtracking: an optional minus
sign, then the maximal digit run, then — only if a dot followed by at
least one digit is present — the dot and the maximal digit run after it. -/

/-- Numeric value of one ASCII digit. -/
def digitVal (c : Char) : ℕ := c.toNat - 48

/-- The natural number denoted by a list of decimal digits. -/
def natOfDigits (l : List Char) : ℕ := l.foldl (fun n c => 10 * n + digitVal c) 0

/-- Greedy match of the unsigned part `\d*\.?\d+` at the start of `l`,
with the backtracking priority of Python's `re` engine, returning the
rational value of the matched text (`float` of the group, exactly). -/
def parseNumCore (l : List Char) : Option ℚ :=
  let d1 := l.takeWhile Char.isDigit
  let r1 := l.dropWhile Char.isDigit
  match r1 with
  | '.' :: r2 =>
      let d2 := r2.takeWhile Char.isDigit
      if d2.isEmpty then (if d1.isEmpty then none else some (natOfDigits d1))
      else some ((natOfDigits (d1 ++ d2) : ℚ) / (10 : ℚ) ^ d2.length)
  | _ => if d1.isEmpty then none else some (natOfDigits d1)

/-- Greedy match of the full group `-?\d*\.?\d+` at the start of `l`.
If the minus sign is present but no number follows, the position fails
(the sign alone is never a match). -/
def parseNum : List Char → Option ℚ
  | '-' :: r => (parseNumCore r).map (fun v => -v)
  | l => parseNumCore l

/-- The `re.search` scan: try every position left to right; at a position
holding the axis letter, succeed iff the group matches right after it,
otherwise keep scanning. -/
def scanNum (axis : Char) : List Char → Option ℚ
  | [] => none
  | c :: cs =>
      if c == axis then
        match parseNum cs with
        | some v => some v
        | none => scanNum axis cs
      else scanNum axis cs

/-- The partial position parsed from one line: axis value or absent,
independently for each of the four recognized axis letters. -/
structure Coords where
  x : Option ℚ
  y : Option ℚ
  e : Option ℚ
  f : Option ℚ
deriving DecidableEq, Repr

/-- Model of `extract_coords(line)`. -/
def extract_coords (l : List Char) : Coords :=
  ⟨scanNum 'X' l, scanNum 'Y' l, scanNum 'E' l, scanNum 'F' l⟩

/-! ### Positions and merging -/

/-- The tracked position `last_pos`: `X`, `Y`, `E` are always present
(initialised to 0.0 by the source), `F` is optional. -/
structure Pos where
  X : ℚ
  Y : ℚ
  E : ℚ
  F : Option ℚ
deriving DecidableEq, Repr

/-- Python `dict.update`: axes present in `c` overwrite, absent axes are
kept. -/
def updatePos (p : Pos) (c : Coords) : Pos :=
  { X := c.x.getD p.X
    Y := c.y.getD p.Y
    E := c.e.getD p.E
    F := match c.f with | some v => some v | none => p.F }

/-- Initial tracked position `{'X': 0.0, 'Y': 0.0, 'E': 0.0}`. -/
def initPos : Pos := ⟨0, 0, 0, none⟩

/-! ### Number formatting (Python `f"{v:.5f}"`, idealised over `ℚ`)

The source formats every emitted coordinate with five digits after the
decimal point.  Over the rationals this is: round `|q| * 10^5` to the
nearest integer (ties to even), then print `m / 10^5` with the fractional
part zero-padded to exactly five digits, a leading minus sign when the
input is negative. -/

/-- Decimal digit characters. -/
def digitChar : ℕ → Char
  | 0 => '0' | 1 => '1' | 2 => '2' | 3 => '3' | 4 => '4'
  | 5 => '5' | 6 => '6' | 7 => '7' | 8 => '8' | _ => '9'

/-- Digit accumulator for `natChars`; the first argument is fuel, always
sufficient because a natural number has fewer decimal digits than its
successor. -/
def natCharsAux : ℕ → ℕ → List Char → List Char
  | 0, _, acc => acc
  | fuel + 1, n, acc =>
      if n < 10 then digitChar n :: acc
      else natCharsAux fuel (n / 10) (digitChar (n % 10) :: acc)

/-- Decimal digit string of a natural number (most significant first). -/
def natChars (n : ℕ) : List Char := natCharsAux (n + 1) n []

/-- Pad a digit string on the left with zeros to width `k`. -/
def padZeros (k : ℕ) (l : List Char) : List Char :=
  List.replicate (k - l.length) '0' ++ l

/-- Round half to even, the rounding used when formatting. -/
def rhe (x : ℚ) : ℤ :=
  let f := ⌊x⌋
  let r := x - (f : ℚ)
  if r < 1/2 then f
  else if (1/2 : ℚ) < r then f + 1
  else if f % 2 = 0 then f else f + 1

/-- Character list of `f"{q:.5f}"`. -/
def fmt5c (q : ℚ) : List Char :=
  let m := (rhe (|q| * 100000)).toNat
  (if q < 0 then ['-'] else []) ++ natChars (m / 100000) ++ '.' :: padZeros 5 (natChars (m % 100000))

/-- The five characters after the decimal point of `f"{q:.5f}"`. -/
def frac5 (q : ℚ) : List Char :=
  padZeros 5 (natChars ((rhe (|q| * 100000)).toNat % 100000))

/-! ### Emitted command lines (source lines 73-84) -/

/-- Fan-on line `"M106 S255 ; ON\n"`. -/
def fanOnLine : String := "M106 S255 ; ON\n"

/-- The configured pulse duration `FAN_ON_TIME_MS = 200`. -/
def FAN_ON_TIME_MS : ℕ := 200

/-- Dwell line `f"G4 P{FAN_ON_TIME_MS} ; Wait\n"`. -/
def dwellLine : String := String.mk ("G4 P".data ++ natChars FAN_ON_TIME_MS ++ " ; Wait\n".data)

/-- Fan-off line `"M107 ; OFF\n"`. -/
def fanOffLine : String := "M107 ; OFF\n"

/-- A rewritten motion line
`f"{move_type} X{x:.5f} Y{y:.5f} E{e:.5f}\n"`. -/
def moveLine (mt : List Char) (x y e : ℚ) : String :=
  String.mk (mt ++ " X".data ++ fmt5c x ++ " Y".data ++ fmt5c y ++ " E".data ++ fmt5c e ++ ['\n'])

/-! ### The pulse segmenter (source lines 23-35) -/

/-- Linear interpolation `a + (b - a) * t`. -/
def interpolate (a b t : ℚ) : ℚ := a + (b - a) * t

/-- One interpolated intermediate position yielded by `segment_move`. -/
structure Seg where
  X : ℚ
  Y : ℚ
  E : ℚ
  F : Option ℚ
deriving DecidableEq, Repr

/-- Model of `segment_move(start, end, segments)`: the intermediate
positions at parameter `i / segments` for `i = 1 .. segments`.  The
feed-rate is `end.get('F', start.get('F'))`. -/
def segment_move (start endP : Pos) (segments : ℕ) : List Seg :=
  (List.range segments).map fun i =>
    let t : ℚ := ((i + 1 : ℕ) : ℚ) / (segments : ℚ)
    { X := interpolate start.X endP.X t
      Y := interpolate start.Y endP.Y t
      E := interpolate start.E endP.E t
      F := match endP.F with | some v => some v | none => start.F }

/-- The four lines appended for one intermediate point: the interpolated
motion line, fan on, dwell, fan off. -/
def pulseQuad (mt : List Char) (sg : Seg) : List String :=
  [moveLine mt sg.X sg.Y sg.E, fanOnLine, dwellLine, fanOffLine]

/-- All lines appended by the `for seg in segment_move(...)` loop. -/
def pulseBlock (mt : List Char) (start endP : Pos) (segments : ℕ) : List String :=
  (segment_move start endP segments).flatMap (pulseQuad mt)

/-! ### The stateful rewriter (source lines 37-91)

The loop state of `process_gcode` is the tracked position `last_pos` and
the floating accumulator `accumulated_distance`; the planar displacement
`math.hypot` is a square root, so the accumulator lives in `ℝ` (the
claims are stated for exact arithmetic). -/

/-- The trigger threshold `TRIGGER_DISTANCE_MM = 1.0`. -/
def TRIGGER_DISTANCE_MM : ℝ := 1

/-- Model of `distance_xy(p1, p2) = math.hypot(p2[0]-p1[0], p2[1]-p1[1])`. -/
noncomputable def distance_xy (p1 p2 : ℚ × ℚ) : ℝ :=
  Real.sqrt (((p2.1 - p1.1 : ℚ) : ℝ) ^ 2 + ((p2.2 - p1.2 : ℚ) : ℝ) ^ 2)

/-- The loop state: `last_pos` and `accumulated_distance`. -/
structure St where
  pos : Pos
  acc : ℝ

/-- The stripped text of a line, `line.strip()`. -/
def strippedOf (line : String) : List Char := stripL line.data

/-- The merged end position of a motion line:
`end = start.copy(); end.update(extract_coords(stripped))`.  This also
equals the `last_pos.update(coords)` performed at the end of the motion
branch. -/
def endPosOf (st : St) (line : String) : Pos :=
  updatePos st.pos (extract_coords (strippedOf line))

/-- The planar displacement of a motion line:
`dist_xy = distance_xy((start.X, start.Y), (end.X, end.Y))`. -/
noncomputable def dispOf (st : St) (line : String) : ℝ :=
  distance_xy (st.pos.X, st.pos.Y) ((endPosOf st line).X, (endPosOf st line).Y)

/-- The crossing count computed when the threshold is reached:
`segments = int(accumulated_distance // TRIGGER_DISTANCE_MM)` taken at the
point where the accumulator already includes this move's displacement. -/
noncomputable def segsOf (st : St) (line : String) : ℕ :=
  (⌊(st.acc + dispOf st line) / TRIGGER_DISTANCE_MM⌋).toNat

/-- The emitted command code: `move_type = 'G1' if 'G1' in stripped else 'G0'`
(a substring test on the whole stripped line). -/
def mtOf (line : String) : List Char :=
  if subL "G1".data (strippedOf line) then "G1".data else "G0".data

/-- The final full-precision motion line appended for every depositing move:
`f"{move_type} X{end.X:.5f} Y{end.Y:.5f} E{end.E:.5f}\n"`. -/
def endLineOf (st : St) (line : String) : String :=
  moveLine (mtOf line) (endPosOf st line).X (endPosOf st line).Y (endPosOf st line).E

/-- One iteration of the `for line in lines` loop of `process_gcode`.
Returns the new state, the lines appended to `output_lines` by this
iteration, and the number of pulse triplets emitted (iterations of the
`for seg in segment_move(...)` loop).  Branches mirror the source in
order: the temperature elision (lines 49-50), the pass-through branch
(lines 52-56), then the motion branch with its depositing test (lines
58-88). -/
noncomputable def processLine (st : St) (line : String) : St × List String × ℕ :=
  let s := strippedOf line
  if isThermalL s then (st, [], 0)
  else if isMotionEL s then
    let endP := endPosOf st line
    if st.pos.E < endP.E then
      let acc1 := st.acc + dispOf st line
      if TRIGGER_DISTANCE_MM ≤ acc1 then
        let segs := segsOf st line
        ({ pos := endP, acc := acc1 - segs * TRIGGER_DISTANCE_MM },
         pulseBlock (mtOf line) st.pos endP segs ++ [endLineOf st line], segs)
      else
        ({ pos := endP, acc := acc1 }, [endLineOf st line], 0)
    else
      ({ pos := endP, acc := st.acc }, [line], 0)
  else
    ({ pos := updatePos st.pos (extract_coords line.data), acc := st.acc }, [line], 0)

/-- The initial loop state:
`last_pos = {'X': 0.0, 'Y': 0.0, 'E': 0.0}` and
`accumulated_distance = 0.0`. -/
noncomputable def initSt : St := ⟨initPos, 0⟩

/-- The loop state after processing a list of lines. -/
noncomputable def runSt (st : St) : List String → St
  | [] => st
  | l :: ls => runSt (processLine st l).1 ls

/-- The full `output_lines` produced from a list of input lines. -/
noncomputable def emitAll (st : St) : List String → List String
  | [] => []
  | l :: ls => (processLine st l).2.1 ++ emitAll (processLine st l).1 ls

/-- The total number of pulse triplets emitted over a run. -/
noncomputable def runPulses (st : St) : List String → ℕ
  | [] => 0
  | l :: ls => (processLine st l).2.2 + runPulses (processLine st l).1 ls

/-- Model of `process_gcode` restricted to its core (file I/O aside):
the rewritten line sequence. -/
noncomputable def process_gcode (lines : List String) : List String :=
  emitAll initSt lines

/-- Whether a line is processed as a depositing move: not a thermal line,
routed to the motion pipeline, and `end.E > start.E` strictly. -/
def depositB (st : St) (line : String) : Bool :=
  !isThermalL (strippedOf line) && isMotionEL (strippedOf line) &&
    decide (st.pos.E < (endPosOf st line).E)

/-- The planar displacement a line contributes to the accumulator:
its displacement if it is a depositing move, and `0` otherwise. -/
noncomputable def depositDisp (st : St) (line : String) : ℝ :=
  if depositB st line then dispOf st line else 0

/-- The sum of the planar displacements of the depositing moves of a run. -/
noncomputable def sumDeposits (st : St) : List String → ℝ
  | [] => 0
  | l :: ls => depositDisp st l + sumDeposits (processLine st l).1 ls

/-- Comparison definition following the spec's words (not the source): a
depositing move of planar displacement `d` updates the accumulator to
`(old + d) - floor((old + d) / threshold) * threshold`. -/
noncomputable def specAccUpdate (a d : ℝ) : ℝ :=
  (a + d) - ⌊(a + d) / TRIGGER_DISTANCE_MM⌋ * TRIGGER_DISTANCE_MM

/-- Comparison definition following the claim's words (not the source):
return the number immediately following the FIRST occurrence of the axis
letter if it parses, and absent when that text is rejected — a later
occurrence is never used. -/
def firstOccValue (axis : Char) : List Char → Option ℚ
  | [] => none
  | c :: cs => if c == axis then parseNum cs else firstOccValue axis cs

/-- The pulse lines emitted before the final end-move line of a depositing
move: the whole `if accumulated_distance >= TRIGGER_DISTANCE_MM` block,
empty when the threshold was not reached. -/
noncomputable def pulsePartOf (st : St) (line : String) : List String :=
  if TRIGGER_DISTANCE_MM ≤ st.acc + dispOf st line then
    pulseBlock (mtOf line) st.pos (endPosOf st line) (segsOf st line)
  else []

/-! ### Basic facts about classification and stripping -/

lemma prefixL_cons (p : Char) (ps s : List Char) (h : prefixL (p :: ps) s = true) :
    ∃ t, s = p :: t ∧ prefixL ps t = true := by
  cases s with
  | nil => simp [prefixL] at h
  | cons c cs =>
    simp only [prefixL, Bool.and_eq_true, beq_iff_eq] at h
    exact ⟨cs, by rw [h.1], h.2⟩

lemma motionE_head (s : List Char) (h : isMotionEL s = true) : ∃ t, s = 'G' :: t := by
  unfold isMotionEL isMotionL at h
  rw [Bool.and_eq_true] at h
  obtain ⟨hm, _⟩ := h
  rw [Bool.or_eq_true] at hm
  rcases hm with h' | h'
  · obtain ⟨t, ht, _⟩ := prefixL_cons _ _ _ (by simpa using h')
    exact ⟨t, ht⟩
  · obtain ⟨t, ht, _⟩ := prefixL_cons _ _ _ (by simpa using h')
    exact ⟨t, ht⟩

lemma isThermal_head (c : Char) (cs : List Char) (h : Char.toUpper c ≠ 'M') :
    isThermalL (c :: cs) = false := by
  unfold isThermalL
  simp only [List.take_succ_cons, List.map_cons, Bool.or_eq_false_iff, beq_eq_false_iff_ne,
    ne_eq, List.cons.injEq, not_and]
  constructor <;> intro hM <;> exact absurd hM h

lemma motion_not_thermal (s : List Char) (h : isMotionEL s = true) : isThermalL s = false := by
  obtain ⟨t, ht⟩ := motionE_head s h
  rw [ht]
  exact isThermal_head _ _ (by decide)

lemma isMotion_head (c : Char) (cs : List Char) (h : c ≠ 'G') :
    isMotionEL (c :: cs) = false := by
  unfold isMotionEL isMotionL
  have hg : (('G' == c) = false) := by
    simp only [beq_eq_false_iff_ne]; exact fun hg => h hg.symm
  have h0 : prefixL "G0".data (c :: cs) = false := by
    show prefixL ('G' :: '0' :: []) (c :: cs) = false
    simp only [prefixL, hg, Bool.false_and]
  have h1 : prefixL "G1".data (c :: cs) = false := by
    show prefixL ('G' :: '1' :: []) (c :: cs) = false
    simp only [prefixL, hg, Bool.false_and]
  simp [h0, h1]

lemma stripL_cons (c : Char) (cs : List Char) (hc : isPySpace c = false) :
    ∃ t, stripL (c :: cs) = c :: t := by
  unfold stripL
  rw [List.dropWhile_cons, hc]
  simp only [Bool.false_eq_true, if_false, List.reverse_cons]
  rw [List.dropWhile_append]
  by_cases he : (cs.reverse.dropWhile isPySpace).isEmpty
  · rw [if_pos he]
    simp [List.dropWhile_cons, hc]
  · rw [if_neg he]
    exact ⟨(cs.reverse.dropWhile isPySpace).reverse, by simp⟩

/-! ### Branch evaluation lemmas for `processLine` -/

lemma processLine_thermal (st : St) (line : String)
    (h : isThermalL (strippedOf line) = true) :
    processLine st line = (st, [], 0) := by
  unfold processLine; simp [h]

lemma processLine_pass (st : St) (line : String)
    (h1 : isThermalL (strippedOf line) = false)
    (h2 : isMotionEL (strippedOf line) = false) :
    processLine st line =
      ({ pos := updatePos st.pos (extract_coords line.data), acc := st.acc }, [line], 0) := by
  unfold processLine; simp [h1, h2]

lemma processLine_noext (st : St) (line : String)
    (h2 : isMotionEL (strippedOf line) = true)
    (h3 : ¬ st.pos.E < (endPosOf st line).E) :
    processLine st line = ({ pos := endPosOf st line, acc := st.acc }, [line], 0) := by
  unfold processLine; simp [motion_not_thermal _ h2, h2, h3]

lemma processLine_nofire (st : St) (line : String)
    (h2 : isMotionEL (strippedOf line) = true)
    (h3 : st.pos.E < (endPosOf st line).E)
    (h4 : ¬ TRIGGER_DISTANCE_MM ≤ st.acc + dispOf st line) :
    processLine st line =
      ({ pos := endPosOf st line, acc := st.acc + dispOf st line }, [endLineOf st line], 0) := by
  unfold processLine; simp [motion_not_thermal _ h2, h2, h3, h4]

lemma processLine_fire (st : St) (line : String)
    (h2 : isMotionEL (strippedOf line) = true)
    (h3 : st.pos.E < (endPosOf st line).E)
    (h4 : TRIGGER_DISTANCE_MM ≤ st.acc + dispOf st line) :
    processLine st line =
      ({ pos := endPosOf st line,
         acc := st.acc + dispOf st line - segsOf st line * TRIGGER_DISTANCE_MM },
       pulseBlock (mtOf line) st.pos (endPosOf st line) (segsOf st line) ++ [endLineOf st line],
       segsOf st line) := by
  unfold processLine; simp [motion_not_thermal _ h2, h2, h3, h4]

/-! ### No emitted line is a thermal line -/

lemma stripL_head_G (t : List Char) : isThermalL (stripL ('G' :: t)) = false := by
  obtain ⟨u, hu⟩ := stripL_cons 'G' t (by decide)
  rw [hu]
  exact isThermal_head _ _ (by decide)

lemma moveLine_not_thermal (mt : List Char) (hmt : mt = "G0".data ∨ mt = "G1".data)
    (x y e : ℚ) : isThermalL (strippedOf (moveLine mt x y e)) = false := by
  rcases hmt with h | h <;> subst h
  · show isThermalL (stripL (('G' :: '0' :: []) ++ " X".data ++ fmt5c x ++ " Y".data ++
      fmt5c y ++ " E".data ++ fmt5c e ++ ['\n'])) = false
    simp only [List.cons_append]
    exact stripL_head_G _
  · show isThermalL (stripL (('G' :: '1' :: []) ++ " X".data ++ fmt5c x ++ " Y".data ++
      fmt5c y ++ " E".data ++ fmt5c e ++ ['\n'])) = false
    simp only [List.cons_append]
    exact stripL_head_G _

lemma mtOf_cases (line : String) : mtOf line = "G0".data ∨ mtOf line = "G1".data := by
  unfold mtOf
  by_cases h : subL "G1".data (strippedOf line) = true
  · exact Or.inr (by rw [if_pos h])
  · exact Or.inl (by rw [if_neg h])

lemma endLine_not_thermal (st : St) (line : String) :
    isThermalL (strippedOf (endLineOf st line)) = false :=
  moveLine_not_thermal _ (mtOf_cases line) _ _ _

lemma pulse_output_not_thermal (mt : List Char) (hmt : mt = "G0".data ∨ mt = "G1".data)
    (start endP : Pos) (segs : ℕ) (l : String) (h : l ∈ pulseBlock mt start endP segs) :
    isThermalL (strippedOf l) = false := by
  unfold pulseBlock at h
  rw [List.mem_flatMap] at h
  obtain ⟨sg, _, hq⟩ := h
  unfold pulseQuad at hq
  simp only [List.mem_cons, List.not_mem_nil, or_false] at hq
  rcases hq with h | h | h | h <;> subst h
  · exact moveLine_not_thermal mt hmt _ _ _
  · decide
  · decide
  · decide

lemma out_not_thermal (st : St) (line l : String) (h : l ∈ (processLine st line).2.1) :
    isThermalL (strippedOf l) = false := by
  cases hb : isThermalL (strippedOf line) with
  | true =>
    rw [processLine_thermal st line hb] at h
    simp at h
  | false =>
    cases hm : isMotionEL (strippedOf line) with
    | false =>
      rw [processLine_pass st line hb hm] at h
      simp only [List.mem_singleton] at h
      subst h; exact hb
    | true =>
      by_cases hex : st.pos.E < (endPosOf st line).E
      · by_cases h4 : TRIGGER_DISTANCE_MM ≤ st.acc + dispOf st line
        · rw [processLine_fire st line hm hex h4] at h
          simp only [List.mem_append, List.mem_singleton] at h
          rcases h with h | h
          · exact pulse_output_not_thermal _ (mtOf_cases line) _ _ _ _ h
          · subst h; exact endLine_not_thermal st line
        · rw [processLine_nofire st line hm hex h4] at h
          simp only [List.mem_singleton] at h
          subst h; exact endLine_not_thermal st line
      · rw [processLine_noext st line hm hex] at h
        simp only [List.mem_singleton] at h
        subst h; exact hb

/-! ### Formatting facts: five digits after the decimal point -/

lemma digitChar_isDigit (n : ℕ) : (digitChar n).isDigit = true := by
  unfold digitChar
  split <;> decide

lemma natCharsAux_mem (fuel : ℕ) : ∀ (n : ℕ) (acc : List Char) (c : Char),
    (∀ a ∈ acc, a.isDigit = true) → c ∈ natCharsAux fuel n acc → c.isDigit = true := by
  induction fuel with
  | zero => intro n acc c hacc hc; exact hacc c hc
  | succ fuel ih =>
    intro n acc c hacc hc
    simp only [natCharsAux] at hc
    by_cases h : n < 10
    · rw [if_pos h] at hc
      rcases List.mem_cons.mp hc with h' | h'
      · rw [h']; exact digitChar_isDigit n
      · exact hacc c h'
    · rw [if_neg h] at hc
      refine ih (n / 10) _ c ?_ hc
      intro a ha
      rcases List.mem_cons.mp ha with h' | h'
      · rw [h']; exact digitChar_isDigit _
      · exact hacc a h'

lemma natChars_digits (n : ℕ) (c : Char) (hc : c ∈ natChars n) : c.isDigit = true :=
  natCharsAux_mem _ _ _ c (by simp) hc

lemma natCharsAux_length (fuel : ℕ) : ∀ (n : ℕ) (acc : List Char) (k : ℕ),
    1 ≤ k → n < 10 ^ k → (natCharsAux fuel n acc).length ≤ k + acc.length := by
  induction fuel with
  | zero => intro n acc k hk _; simp [natCharsAux]
  | succ fuel ih =>
    intro n acc k hk hn
    simp only [natCharsAux]
    by_cases h : n < 10
    · rw [if_pos h]; simp; omega
    · rw [if_neg h]
      have hk2 : 2 ≤ k := by
        by_contra hlt
        have hk1 : k = 1 := by omega
        rw [hk1, pow_one] at hn
        exact h hn
      have hdiv : n / 10 < 10 ^ (k - 1) := by
        rw [Nat.div_lt_iff_lt_mul (by norm_num)]
        have hp : 10 ^ (k - 1) * 10 = 10 ^ k := by
          rw [← pow_succ]
          congr 1
          omega
        rw [hp]
        exact hn
      have := ih (n / 10) (digitChar (n % 10) :: acc) (k - 1) (by omega) hdiv
      simp at this ⊢
      omega

lemma natChars_length_le5 (n : ℕ) (h : n < 100000) : (natChars n).length ≤ 5 := by
  have := natCharsAux_length (n + 1) n [] 5 (by norm_num) (by norm_num; omega)
  simpa using this

lemma frac5_length (q : ℚ) : (frac5 q).length = 5 := by
  unfold frac5 padZeros
  have h5 := natChars_length_le5 ((rhe (|q| * 100000)).toNat % 100000)
    (Nat.mod_lt _ (by norm_num))
  simp only [List.length_append, List.length_replicate]
  omega

lemma frac5_digits (q : ℚ) (c : Char) (hc : c ∈ frac5 q) : c.isDigit = true := by
  unfold frac5 padZeros at hc
  rcases List.mem_append.mp hc with h | h
  · rw [List.eq_of_mem_replicate h]; decide
  · exact natChars_digits _ _ h

/-- Structure of the formatted string: some prefix without a decimal
point, then the decimal point, then exactly five digits. -/
lemma fmt5c_split (q : ℚ) :
    ∃ pre, fmt5c q = pre ++ '.' :: frac5 q ∧ '.' ∉ pre ∧ (frac5 q).length = 5 ∧
      ∀ c ∈ frac5 q, c.isDigit = true := by
  refine ⟨(if q < 0 then ['-'] else []) ++
      natChars ((rhe (|q| * 100000)).toNat / 100000), ?_, ?_, frac5_length q, frac5_digits q⟩
  · unfold fmt5c frac5
    rw [List.append_assoc]
  · intro hdot
    rcases List.mem_append.mp hdot with h | h
    · by_cases hq : q < 0
      · rw [if_pos hq] at h; simp at h
      · rw [if_neg hq] at h; simp at h
    · exact absurd (natChars_digits _ '.' h) (by decide)

lemma fmt5c_chars (q : ℚ) (c : Char) (hc : c ∈ fmt5c q) :
    c.isDigit = true ∨ c = '.' ∨ c = '-' := by
  have he : fmt5c q =
      ((if q < 0 then ['-'] else []) ++
        natChars ((rhe (|q| * 100000)).toNat / 100000)) ++
          ('.' :: padZeros 5 (natChars ((rhe (|q| * 100000)).toNat % 100000))) := rfl
  rw [he] at hc
  rcases List.mem_append.mp hc with h | h
  · rcases List.mem_append.mp h with h | h
    · by_cases hq : q < 0
      · rw [if_pos hq] at h
        simp only [List.mem_singleton] at h
        exact Or.inr (Or.inr h)
      · rw [if_neg hq] at h
        simp at h
    · exact Or.inl (natChars_digits _ _ h)
  · rcases List.mem_cons.mp h with h | h
    · exact Or.inr (Or.inl h)
    · unfold padZeros at h
      rcases List.mem_append.mp h with h | h
      · rw [List.eq_of_mem_replicate h]
        exact Or.inl (by decide)
      · exact Or.inl (natChars_digits _ _ h)

/-- The rewritten motion lines contain neither the feed-rate letter `F`
nor the comment character `;`. -/
lemma moveLine_chars (mt : List Char) (hmt : mt = "G0".data ∨ mt = "G1".data) (x y e : ℚ) :
    'F' ∉ (moveLine mt x y e).data ∧ ';' ∉ (moveLine mt x y e).data := by
  have key : ∀ c ∈ (moveLine mt x y e).data, c ≠ 'F' ∧ c ≠ ';' := by
    intro c hc
    have hfmt : ∀ q : ℚ, c ∈ fmt5c q → c ≠ 'F' ∧ c ≠ ';' := by
      intro q hq
      rcases fmt5c_chars q c hq with hd | hd | hd
      · constructor <;> rintro rfl <;> simp at hd
      · rw [hd]; exact ⟨by decide, by decide⟩
      · rw [hd]; exact ⟨by decide, by decide⟩
    have he : (moveLine mt x y e).data =
        mt ++ [' ', 'X'] ++ fmt5c x ++ [' ', 'Y'] ++ fmt5c y ++
          [' ', 'E'] ++ fmt5c e ++ ['\n'] := rfl
    rw [he] at hc
    rcases List.mem_append.mp hc with h | h
    · rcases List.mem_append.mp h with h | h
      · rcases List.mem_append.mp h with h | h
        · rcases List.mem_append.mp h with h | h
          · rcases List.mem_append.mp h with h | h
            · rcases List.mem_append.mp h with h | h
              · rcases List.mem_append.mp h with h | h
                · rcases hmt with hm | hm <;> rw [hm] at h <;>
                    simp only [show ("G0".data : List Char) = ['G', '0'] from rfl,
                      show ("G1".data : List Char) = ['G', '1'] from rfl,
                      List.mem_cons, List.not_mem_nil, or_false] at h <;>
                    rcases h with rfl | rfl <;> exact ⟨by decide, by decide⟩
                · simp only [List.mem_cons, List.not_mem_nil, or_false] at h
                  rcases h with rfl | rfl <;> exact ⟨by decide, by decide⟩
              · exact hfmt x h
            · simp only [List.mem_cons, List.not_mem_nil, or_false] at h
              rcases h with rfl | rfl <;> exact ⟨by decide, by decide⟩
          · exact hfmt y h
        · simp only [List.mem_cons, List.not_mem_nil, or_false] at h
          rcases h with rfl | rfl <;> exact ⟨by decide, by decide⟩
      · exact hfmt e h
    · simp only [List.mem_cons, List.not_mem_nil, or_false] at h
      rw [h]
      exact ⟨by decide, by decide⟩
  exact ⟨fun h => (key 'F' h).1 rfl, fun h => (key ';' h).2 rfl⟩

/-! ### Accumulator bookkeeping -/

lemma TRIGGER_eq_one : TRIGGER_DISTANCE_MM = 1 := rfl

lemma dispOf_nonneg (st : St) (line : String) : 0 ≤ dispOf st line :=
  Real.sqrt_nonneg _

lemma segsOf_cast (st : St) (line : String)
    (h4 : TRIGGER_DISTANCE_MM ≤ st.acc + dispOf st line) :
    ((segsOf st line : ℕ) : ℝ) = ((⌊st.acc + dispOf st line⌋ : ℤ) : ℝ) := by
  have hfl0 : (0:ℤ) ≤ ⌊st.acc + dispOf st line⌋ := by
    rw [TRIGGER_eq_one] at h4
    exact Int.floor_nonneg.mpr (le_trans zero_le_one h4)
  have h : (segsOf st line : ℤ) = ⌊st.acc + dispOf st line⌋ := by
    unfold segsOf
    rw [TRIGGER_eq_one, div_one]
    exact Int.toNat_of_nonneg hfl0
  exact_mod_cast congrArg (fun z : ℤ => (z : ℝ)) h

/-- The number of pulse triplets emitted by one line, scaled by the trigger
distance, is exactly what the line added to the accumulator minus what the
accumulator retained. -/
lemma step_pulse_eq (st : St) (line : String) :
    ((processLine st line).2.2 : ℝ) * TRIGGER_DISTANCE_MM =
      st.acc + depositDisp st line - (processLine st line).1.acc := by
  cases hb : isThermalL (strippedOf line) with
  | true =>
    rw [processLine_thermal st line hb]
    simp [depositDisp, depositB, hb]
  | false =>
    cases hm : isMotionEL (strippedOf line) with
    | false =>
      rw [processLine_pass st line hb hm]
      simp [depositDisp, depositB, hm]
    | true =>
      by_cases hex : st.pos.E < (endPosOf st line).E
      · have hdep : depositB st line = true := by simp [depositB, hb, hm, hex]
        by_cases h4 : TRIGGER_DISTANCE_MM ≤ st.acc + dispOf st line
        · rw [processLine_fire st line hm hex h4]
          simp only [depositDisp, hdep, if_true]
          ring
        · rw [processLine_nofire st line hm hex h4]
          simp only [depositDisp, hdep, if_true]
          push_cast
          ring
      · have hdep : depositB st line = false := by simp [depositB, hb, hm, hex]
        rw [processLine_noext st line hm hex]
        simp [depositDisp, hdep]

/-- One step preserves `0 ≤ accumulator < trigger`. -/
lemma step_acc_bounds (st : St) (line : String)
    (h0 : 0 ≤ st.acc) (h1 : st.acc < TRIGGER_DISTANCE_MM) :
    0 ≤ (processLine st line).1.acc ∧
    (processLine st line).1.acc < TRIGGER_DISTANCE_MM := by
  cases hb : isThermalL (strippedOf line) with
  | true => rw [processLine_thermal st line hb]; exact ⟨h0, h1⟩
  | false =>
    cases hm : isMotionEL (strippedOf line) with
    | false => rw [processLine_pass st line hb hm]; exact ⟨h0, h1⟩
    | true =>
      by_cases hex : st.pos.E < (endPosOf st line).E
      · by_cases h4 : TRIGGER_DISTANCE_MM ≤ st.acc + dispOf st line
        · rw [processLine_fire st line hm hex h4]
          have hcast := segsOf_cast st line h4
          show 0 ≤ st.acc + dispOf st line - ↑(segsOf st line) * TRIGGER_DISTANCE_MM ∧
            st.acc + dispOf st line - ↑(segsOf st line) * TRIGGER_DISTANCE_MM <
              TRIGGER_DISTANCE_MM
          rw [TRIGGER_eq_one, mul_one, hcast]
          constructor
          · linarith [Int.floor_le (st.acc + dispOf st line)]
          · linarith [Int.lt_floor_add_one (st.acc + dispOf st line)]
        · rw [processLine_nofire st line hm hex h4]
          exact ⟨add_nonneg h0 (dispOf_nonneg st line), not_le.mp h4⟩
      · rw [processLine_noext st line hm hex]
        exact ⟨h0, h1⟩

/-- One step realises the spec's renewal formula: a depositing move maps
the accumulator to `(old + d) - floor((old + d)/threshold) * threshold`,
every other line leaves it unchanged. -/
lemma step_acc_update (st : St) (line : String) (h0 : 0 ≤ st.acc) :
    (processLine st line).1.acc =
      if depositB st line then specAccUpdate st.acc (dispOf st line) else st.acc := by
  cases hb : isThermalL (strippedOf line) with
  | true =>
    rw [processLine_thermal st line hb]
    simp [depositB, hb]
  | false =>
    cases hm : isMotionEL (strippedOf line) with
    | false =>
      rw [processLine_pass st line hb hm]
      simp [depositB, hm]
    | true =>
      by_cases hex : st.pos.E < (endPosOf st line).E
      · have hdep : depositB st line = true := by simp [depositB, hb, hm, hex]
        rw [if_pos hdep]
        by_cases h4 : TRIGGER_DISTANCE_MM ≤ st.acc + dispOf st line
        · rw [processLine_fire st line hm hex h4]
          show st.acc + dispOf st line - ↑(segsOf st line) * TRIGGER_DISTANCE_MM = _
          rw [specAccUpdate, TRIGGER_eq_one, div_one, mul_one, mul_one,
            segsOf_cast st line h4]
        · rw [processLine_nofire st line hm hex h4]
          show st.acc + dispOf st line = _
          rw [specAccUpdate, TRIGGER_eq_one, div_one, mul_one]
          have hz : ⌊st.acc + dispOf st line⌋ = 0 := by
            apply Int.floor_eq_zero_iff.mpr
            rw [TRIGGER_eq_one] at h4
            exact ⟨add_nonneg h0 (dispOf_nonneg st line), not_le.mp h4⟩
          rw [hz]
          norm_num
      · have hdep : depositB st line = false := by simp [depositB, hb, hm, hex]
        rw [if_neg (by simp [hdep])]
        rw [processLine_noext st line hm hex]

/-- Folding the one-step lemmas over a run. -/
lemma runSt_append (st : St) (xs ys : List String) :
    runSt st (xs ++ ys) = runSt (runSt st xs) ys := by
  induction xs generalizing st with
  | nil => rfl
  | cons a l ih => exact ih (processLine st a).1

lemma run_acc_bounds (lines : List String) (st : St)
    (h0 : 0 ≤ st.acc) (h1 : st.acc < TRIGGER_DISTANCE_MM) :
    0 ≤ (runSt st lines).acc ∧ (runSt st lines).acc < TRIGGER_DISTANCE_MM := by
  induction lines generalizing st with
  | nil => exact ⟨h0, h1⟩
  | cons a l ih =>
    obtain ⟨g0, g1⟩ := step_acc_bounds st a h0 h1
    exact ih (processLine st a).1 g0 g1

lemma run_pulse_eq (lines : List String) (st : St) :
    (runPulses st lines : ℝ) * TRIGGER_DISTANCE_MM =
      st.acc + sumDeposits st lines - (runSt st lines).acc := by
  induction lines generalizing st with
  | nil => simp [runPulses, sumDeposits, runSt]
  | cons a l ih =>
    have hstep := step_pulse_eq st a
    have hrest := ih (processLine st a).1
    show ((((processLine st a).2.2 + runPulses (processLine st a).1 l : ℕ)) : ℝ) *
        TRIGGER_DISTANCE_MM =
      st.acc + (depositDisp st a + sumDeposits (processLine st a).1 l) -
        (runSt (processLine st a).1 l).acc
    push_cast
    rw [add_mul]
    rw [hstep, hrest]
    ring

/-! ### Closed form of the pulse block and concrete-value helpers -/

/-- The pulse block written out as the claim states it: for each
`i = 1 .. N` a motion line at the linear interpolations
`a + (b - a) * (i / N)`, then fan on, dwell, fan off. -/
lemma pulseBlock_eq (mt : List Char) (start endP : Pos) (N : ℕ) :
    pulseBlock mt start endP N =
      (List.range N).flatMap fun i =>
        [moveLine mt
            (start.X + (endP.X - start.X) * (((i + 1 : ℕ) : ℚ) / (N : ℚ)))
            (start.Y + (endP.Y - start.Y) * (((i + 1 : ℕ) : ℚ) / (N : ℚ)))
            (start.E + (endP.E - start.E) * (((i + 1 : ℕ) : ℚ) / (N : ℚ))),
          fanOnLine, dwellLine, fanOffLine] := by
  unfold pulseBlock segment_move
  rw [List.flatMap_map]
  refine congrArg _ (funext fun i => ?_)
  rfl

/-- A crossing count of at least one means the threshold branch fired. -/
lemma segs_ge_one_fire (st : St) (line : String) (hN : 1 ≤ segsOf st line) :
    TRIGGER_DISTANCE_MM ≤ st.acc + dispOf st line := by
  unfold segsOf at hN
  rw [TRIGGER_eq_one, div_one] at hN
  rw [TRIGGER_eq_one]
  have h1 : (1 : ℤ) ≤ ⌊st.acc + dispOf st line⌋ := by omega
  exact_mod_cast Int.le_floor.mp h1

/-- A list starts with itself followed by anything. -/
lemma prefixL_append (p t : List Char) : prefixL p (p ++ t) = true := by
  induction p with
  | nil => rfl
  | cons c cs ih => simp [prefixL, ih]

/-- Evaluate the planar displacement at concrete coordinates. -/
lemma dispOf_concrete (st : St) (line : String) (x0 y0 x1 y1 : ℚ) (r : ℝ)
    (h0 : st.pos.X = x0) (h1 : st.pos.Y = y0)
    (h2 : (endPosOf st line).X = x1) (h3 : (endPosOf st line).Y = y1)
    (hr : Real.sqrt (((x1 - x0 : ℚ) : ℝ) ^ 2 + ((y1 - y0 : ℚ) : ℝ) ^ 2) = r) :
    dispOf st line = r := by
  show Real.sqrt ((((endPosOf st line).X - st.pos.X : ℚ) : ℝ) ^ 2 +
    (((endPosOf st line).Y - st.pos.Y : ℚ) : ℝ) ^ 2) = r
  rw [h0, h1, h2, h3]
  exact hr

/-- Evaluate the crossing count when the accumulator lands exactly on the
trigger distance. -/
lemma segsOf_concrete_one (st : St) (line : String)
    (h : st.acc + dispOf st line = 1) : segsOf st line = 1 := by
  unfold segsOf
  rw [TRIGGER_eq_one, div_one, h, Int.floor_one]
  rfl

/-! ### Claim theorems -/

/-- Claim C10: a line classified as thermal-control (its stripped text
matches the case-insensitive `M104`/`M109` prefix) leaves the tracked
position and the accumulator exactly unchanged; its axis values are
ignored entirely. -/
theorem thermal_no_state_update (st : St) (line : String)
    (h : isThermalL (strippedOf line) = true) :
    (processLine st line).1.pos = st.pos ∧ (processLine st line).1.acc = st.acc := by
  rw [processLine_thermal st line h]
  exact ⟨rfl, rfl⟩

/-- Witness for C10 at the concrete thermal line `"m104 S200\n"`. -/
theorem thermal_no_state_update_witness :
    isThermalL (strippedOf "m104 S200\n") = true ∧
    ((processLine initSt "m104 S200\n").1.pos = initSt.pos ∧
     (processLine initSt "m104 S200\n").1.acc = initSt.acc) :=
  ⟨by decide, thermal_no_state_update initSt "m104 S200\n" (by decide)⟩

/-- Claim C8: a motion line that is not depositing (`end.E ≤ start.E`) is
copied to the output unchanged, emits no pulse triplet, leaves the
accumulator unchanged, and still merges its coordinates into the tracked
position. -/
theorem non_extruding_passthrough (st : St) (line : String)
    (hm : isMotionEL (strippedOf line) = true)
    (hne : ¬ st.pos.E < (endPosOf st line).E) :
    (processLine st line).2.1 = [line] ∧
    (processLine st line).2.2 = 0 ∧
    (processLine st line).1.acc = st.acc ∧
    (processLine st line).1.pos = endPosOf st line := by
  rw [processLine_noext st line hm hne]
  exact ⟨rfl, rfl, rfl, rfl⟩

/-- Witness for C8 at the concrete non-depositing motion line
`"G1 X3 Y4 E0\n"` from the initial state. -/
theorem non_extruding_passthrough_witness :
    isMotionEL (strippedOf "G1 X3 Y4 E0\n") = true ∧
    ¬ initSt.pos.E < (endPosOf initSt "G1 X3 Y4 E0\n").E ∧
    ((processLine initSt "G1 X3 Y4 E0\n").2.1 = ["G1 X3 Y4 E0\n"] ∧
     (processLine initSt "G1 X3 Y4 E0\n").2.2 = 0 ∧
     (processLine initSt "G1 X3 Y4 E0\n").1.acc = initSt.acc ∧
     (processLine initSt "G1 X3 Y4 E0\n").1.pos = endPosOf initSt "G1 X3 Y4 E0\n") :=
  ⟨by decide, by decide,
   non_extruding_passthrough initSt "G1 X3 Y4 E0\n" (by decide) (by decide)⟩

/-- Claim C5 is false on the code: the classifier is the case-sensitive
test `stripped.startswith(('G0', 'G1'))` (the case-insensitive `move_re`
of source line 9 is never used), so the lowercase spelling `g1 X1 E1` of
the motion line `G1 X1 E1` is classified differently although the two
lines agree up to letter case. -/
theorem motion_classification_case_cex :
    ("g1 X1 E1".data.map Char.toUpper = "G1 X1 E1".data.map Char.toUpper) ∧
    isMotionEL (stripL "g1 X1 E1".data) = false ∧
    isMotionEL (stripL "G1 X1 E1".data) = true := by
  refine ⟨by decide, by decide, by decide⟩

/-- Claim C5 amended: motion classification is case-sensitive — a line
whose stripped text starts with a lowercase motion code (`g0` or `g1`) is
not routed to the distance pipeline; it is passed through unchanged (and
not dropped as thermal), with its coordinates still merged into the
tracked position and the accumulator untouched. -/
theorem motion_classification_case_sensitive (st : St) (line : String)
    (h : prefixL "g0".data (strippedOf line) = true ∨
         prefixL "g1".data (strippedOf line) = true) :
    (processLine st line).2.1 = [line] ∧
    (processLine st line).1.pos = updatePos st.pos (extract_coords line.data) ∧
    (processLine st line).1.acc = st.acc := by
  have hhead : ∃ t, strippedOf line = 'g' :: t := by
    rcases h with h | h
    · obtain ⟨t, ht, _⟩ := prefixL_cons 'g' ('0' :: []) _ h
      exact ⟨t, ht⟩
    · obtain ⟨t, ht, _⟩ := prefixL_cons 'g' ('1' :: []) _ h
      exact ⟨t, ht⟩
  obtain ⟨t, ht⟩ := hhead
  have hth : isThermalL (strippedOf line) = false := by
    rw [ht]; exact isThermal_head _ _ (by decide)
  have hmo : isMotionEL (strippedOf line) = false := by
    rw [ht]; exact isMotion_head _ _ (by decide)
  rw [processLine_pass st line hth hmo]
  exact ⟨rfl, rfl, rfl⟩

/-- Witness for the amended C5 at the concrete line `"g1 X1 Y0 E1\n"`. -/
theorem motion_classification_case_witness :
    (prefixL "g0".data (strippedOf "g1 X1 Y0 E1\n") = true ∨
     prefixL "g1".data (strippedOf "g1 X1 Y0 E1\n") = true) ∧
    ((processLine initSt "g1 X1 Y0 E1\n").2.1 = ["g1 X1 Y0 E1\n"] ∧
     (processLine initSt "g1 X1 Y0 E1\n").1.pos =
       updatePos initSt.pos (extract_coords "g1 X1 Y0 E1\n".data) ∧
     (processLine initSt "g1 X1 Y0 E1\n").1.acc = initSt.acc) :=
  ⟨Or.inr (by decide),
   motion_classification_case_sensitive initSt "g1 X1 Y0 E1\n" (Or.inr (by decide))⟩

/-- Claim C3: every depositing move (`end.E > start.E` strictly) emits,
after the pulse block, exactly one trailing motion line moving to the
merged end position (five-decimal formatting), and this line is emitted
even when no threshold was crossed during the move, in which case it is
the only output of the move. -/
theorem final_end_move_always (st : St) (line : String)
    (hm : isMotionEL (strippedOf line) = true)
    (hex : st.pos.E < (endPosOf st line).E) :
    (processLine st line).2.1 = pulsePartOf st line ++ [endLineOf st line] ∧
    (st.acc + dispOf st line < TRIGGER_DISTANCE_MM →
      (processLine st line).2.1 = [endLineOf st line]) := by
  by_cases h4 : TRIGGER_DISTANCE_MM ≤ st.acc + dispOf st line
  · rw [processLine_fire st line hm hex h4]
    refine ⟨by rw [pulsePartOf, if_pos h4], fun hlt => absurd h4 (not_le.mpr hlt)⟩
  · rw [processLine_nofire st line hm hex h4]
    exact ⟨by rw [pulsePartOf, if_neg h4, List.nil_append], fun _ => rfl⟩

/-- Witness for C3 at the zero-displacement depositing line
`"G1 X0 Y0 E1\n"` from the initial state. -/
theorem final_end_move_witness :
    isMotionEL (strippedOf "G1 X0 Y0 E1\n") = true ∧
    initSt.pos.E < (endPosOf initSt "G1 X0 Y0 E1\n").E ∧
    ((processLine initSt "G1 X0 Y0 E1\n").2.1 =
       pulsePartOf initSt "G1 X0 Y0 E1\n" ++ [endLineOf initSt "G1 X0 Y0 E1\n"] ∧
     (initSt.acc + dispOf initSt "G1 X0 Y0 E1\n" < TRIGGER_DISTANCE_MM →
       (processLine initSt "G1 X0 Y0 E1\n").2.1 = [endLineOf initSt "G1 X0 Y0 E1\n"])) :=
  ⟨by decide, by decide,
   final_end_move_always initSt "G1 X0 Y0 E1\n" (by decide) (by decide)⟩

/-- Claim C7: no line of the output is a thermal line (every input line
beginning with the case-insensitive `M104`/`M109` prefix is dropped, and
nothing the rewriter emits matches that prefix), and the pass-through
lines of the input appear in the output in their original relative order
(as an ordered sublist). -/
theorem thermal_elision_order (st : St) (lines : List String) :
    (∀ l : String, isThermalL (strippedOf l) = true → l ∉ emitAll st lines) ∧
    List.Sublist
      (lines.filter fun l => !isThermalL (strippedOf l) && !isMotionEL (strippedOf l))
      (emitAll st lines) := by
  induction lines generalizing st with
  | nil => exact ⟨fun l _ => List.not_mem_nil l, List.nil_sublist _⟩
  | cons a ls ih =>
    constructor
    · intro l hl hmem
      rw [show emitAll st (a :: ls) =
            (processLine st a).2.1 ++ emitAll (processLine st a).1 ls from rfl] at hmem
      rcases List.mem_append.mp hmem with h | h
      · have := out_not_thermal st a l h
        rw [hl] at this
        cases this
      · exact (ih (processLine st a).1).1 l hl h
    · rw [show emitAll st (a :: ls) =
            (processLine st a).2.1 ++ emitAll (processLine st a).1 ls from rfl,
          List.filter_cons]
      by_cases hp : (!isThermalL (strippedOf a) && !isMotionEL (strippedOf a)) = true
      · rw [if_pos (by simpa using hp)]
        rw [Bool.and_eq_true, Bool.not_eq_true', Bool.not_eq_true'] at hp
        rw [processLine_pass st a hp.1 hp.2]
        exact List.Sublist.cons₂ a ((ih _).2)
      · rw [if_neg (by simpa using hp)]
        exact ((ih _).2).trans (List.sublist_append_right _ _)

/-- Witness for C7: a concrete thermal line is absent from the output of a
concrete run containing it. -/
theorem thermal_elision_witness :
    isThermalL (strippedOf "M109 S200\n") = true ∧
    "M109 S200\n" ∉ emitAll initSt ["M109 S200\n", "hello\n"] :=
  ⟨by decide,
   (thermal_elision_order initSt ["M109 S200\n", "hello\n"]).1 "M109 S200\n" (by decide)⟩

/-- Claim C6 is false on the code: `re.search` skips an axis letter whose
following text is rejected and uses a later occurrence.  On the line
`Xa X5` the first `X` is followed by rejected text, so the claim predicts
"absent" (formalised by `firstOccValue`), but the extractor returns 5. -/
theorem extract_first_occurrence_cex :
    (extract_coords "Xa X5".data).x = some 5 ∧
    firstOccValue 'X' "Xa X5".data = none := by
  refine ⟨by decide, by decide⟩

/-- Claim C6 amended: the extractor returns the value at the first
occurrence of the axis letter that is immediately followed by text the
numeric grammar accepts — occurrences followed by rejected text are
skipped, so a later occurrence can be used — and returns absent exactly
when no occurrence of the letter is followed by a parseable number. -/
theorem extract_first_parseable_occurrence (axis : Char) (l : List Char) :
    (∀ v : ℚ, scanNum axis l = some v ↔
      ∃ pre suf, l = pre ++ axis :: suf ∧ parseNum suf = some v ∧
        ∀ pre2 suf2, pre2.length < pre.length → l = pre2 ++ axis :: suf2 →
          parseNum suf2 = none) ∧
    (scanNum axis l = none ↔
      ∀ pre suf, l = pre ++ axis :: suf → parseNum suf = none) := by
  induction l with
  | nil =>
    constructor
    · intro v
      constructor
      · intro h; exact absurd h (by simp [scanNum])
      · rintro ⟨pre, suf, heq, -, -⟩
        simp at heq
    · constructor
      · rintro - pre suf heq
        simp at heq
      · intro _; rfl
  | cons c cs ih =>
    by_cases hA : c = axis ∧ parseNum cs ≠ none
    · obtain ⟨hc, hne⟩ := hA
      obtain ⟨w, hps⟩ := Option.ne_none_iff_exists'.mp hne
      have hscan : scanNum axis (c :: cs) = some w := by
        simp [scanNum, hc, hps]
      constructor
      · intro v
        constructor
        · intro h
          rw [hscan] at h
          injection h with hwv
          refine ⟨[], cs, by rw [List.nil_append, hc], by rw [hps, hwv], ?_⟩
          intro pre2 suf2 hlt _
          exact absurd hlt (by simp)
        · rintro ⟨pre, suf, heq, hp, hmin⟩
          cases pre with
          | nil =>
            rw [List.nil_append] at heq
            injection heq with h1 h2
            rw [hscan]
            rw [← h2] at hp
            rw [hp] at hps
            exact hps.symm
          | cons p pre' =>
            exfalso
            have h0 := hmin [] cs (by simp) (by rw [List.nil_append, hc])
            rw [h0] at hps
            exact Option.noConfusion hps
      · constructor
        · intro h
          rw [hscan] at h
          exact Option.noConfusion h
        · intro hall
          exfalso
          have h0 := hall [] cs (by rw [List.nil_append, hc])
          rw [h0] at hps
          exact Option.noConfusion hps
    · have H : c = axis → parseNum cs = none := by
        intro hc
        by_contra hne
        exact hA ⟨hc, hne⟩
      have hscan : scanNum axis (c :: cs) = scanNum axis cs := by
        by_cases hc : c = axis
        · simp [scanNum, hc, H hc]
        · simp [scanNum, hc]
      constructor
      · intro v
        rw [hscan]
        constructor
        · intro h
          obtain ⟨pre, suf, heq, hp, hmin⟩ := (ih.1 v).mp h
          refine ⟨c :: pre, suf, by rw [List.cons_append, heq], hp, ?_⟩
          intro pre2 suf2 hlt heq2
          cases pre2 with
          | nil =>
            rw [List.nil_append] at heq2
            injection heq2 with h1 h2
            rw [← h2]
            exact H h1
          | cons p pre2' =>
            rw [List.cons_append] at heq2
            injection heq2 with h1 h2
            exact hmin pre2' suf2 (by simpa using hlt) h2
        · rintro ⟨pre, suf, heq, hp, hmin⟩
          cases pre with
          | nil =>
            exfalso
            rw [List.nil_append] at heq
            injection heq with h1 h2
            rw [← h2, H h1] at hp
            exact Option.noConfusion hp
          | cons p pre' =>
            rw [List.cons_append] at heq
            injection heq with h1 h2
            refine (ih.1 v).mpr ⟨pre', suf, h2, hp, ?_⟩
            intro pre2 suf2 hlt heq2
            exact hmin (c :: pre2) suf2 (by simpa using hlt) (by rw [List.cons_append, heq2])
      · rw [hscan]
        constructor
        · intro h pre suf heq
          cases pre with
          | nil =>
            rw [List.nil_append] at heq
            injection heq with h1 h2
            rw [← h2]
            exact H h1
          | cons p pre' =>
            rw [List.cons_append] at heq
            injection heq with h1 h2
            exact ih.2.mp h pre' suf h2
        · intro hall
          exact ih.2.mpr fun pre suf heq => hall (c :: pre) suf (by rw [List.cons_append, heq])

/-- Claim C1: over any input line sequence, the total number of pulse
triplets emitted equals `floor` of the sum of the planar displacements of
the depositing moves divided by the trigger threshold (exact arithmetic) —
in particular it depends only on that total distance, not on how the
distance is partitioned into individual moves. -/
theorem distance_renewal_total_pulses (lines : List String) :
    (runPulses initSt lines : ℤ) =
      ⌊sumDeposits initSt lines / TRIGGER_DISTANCE_MM⌋ := by
  have h := run_pulse_eq lines initSt
  have hb := run_acc_bounds lines initSt (le_refl 0) (by rw [TRIGGER_eq_one]; show (0:ℝ) < 1; norm_num)
  rw [TRIGGER_eq_one, mul_one] at h
  rw [TRIGGER_eq_one, div_one]
  have hacc0 : initSt.acc = 0 := rfl
  rw [hacc0, zero_add] at h
  rw [TRIGGER_eq_one] at hb
  symm
  rw [Int.floor_eq_iff]
  constructor
  · push_cast
    linarith [hb.1]
  · push_cast
    linarith [hb.2]

/-- Claim C4: the accumulator starts at 0, satisfies
`0 ≤ accumulator < trigger threshold` after every processed line, and one
more line updates it by the spec's renewal formula
`(old + d) - floor((old + d)/threshold) * threshold` when that line is a
depositing move, leaving it exactly unchanged otherwise. -/
theorem accumulator_renewal_invariant (lines : List String) (l : String) :
    initSt.acc = 0 ∧
    (0 ≤ (runSt initSt lines).acc ∧
     (runSt initSt lines).acc < TRIGGER_DISTANCE_MM) ∧
    (runSt initSt (lines ++ [l])).acc =
      (if depositB (runSt initSt lines) l then
        specAccUpdate (runSt initSt lines).acc (dispOf (runSt initSt lines) l)
      else (runSt initSt lines).acc) := by
  have hb := run_acc_bounds lines initSt (le_refl 0) (by rw [TRIGGER_eq_one]; show (0:ℝ) < 1; norm_num)
  refine ⟨rfl, hb, ?_⟩
  rw [runSt_append]
  exact step_acc_update (runSt initSt lines) l hb.1

/-- Claim C2 amended: for a depositing move whose crossing count `N` is at
least 1, the rewriter emits for each `i = 1 .. N`, in order, exactly four
lines — a motion command whose X, Y, E are the linear interpolations
`a + (b - a) * (i / N)` formatted to exactly five digits after the
decimal point, then the actuator-on command, the dwell command with the
configured pulse duration, and the actuator-off command — followed by the
final end-move line.  The command code of the emitted motion lines is
`G1` whenever the substring `G1` occurs anywhere in the stripped input
line and `G0` otherwise (`mtOf`); for ordinary lines whose only command
token is the leading one this coincides with the original move's code,
but it is not always the original code (see the counterexample). -/
theorem pulse_segment_emission (st : St) (line : String)
    (hm : isMotionEL (strippedOf line) = true)
    (hex : st.pos.E < (endPosOf st line).E)
    (hN : 1 ≤ segsOf st line) :
    (processLine st line).2.1 =
      ((List.range (segsOf st line)).flatMap fun i =>
        [moveLine (mtOf line)
            (st.pos.X + ((endPosOf st line).X - st.pos.X) *
              (((i + 1 : ℕ) : ℚ) / (segsOf st line : ℚ)))
            (st.pos.Y + ((endPosOf st line).Y - st.pos.Y) *
              (((i + 1 : ℕ) : ℚ) / (segsOf st line : ℚ)))
            (st.pos.E + ((endPosOf st line).E - st.pos.E) *
              (((i + 1 : ℕ) : ℚ) / (segsOf st line : ℚ))),
          fanOnLine, dwellLine, fanOffLine]) ++ [endLineOf st line] ∧
    (∀ q : ℚ, ∃ pre, fmt5c q = pre ++ '.' :: frac5 q ∧ '.' ∉ pre ∧
      (frac5 q).length = 5 ∧ ∀ c ∈ frac5 q, c.isDigit = true) := by
  refine ⟨?_, fmt5c_split⟩
  rw [processLine_fire st line hm hex (segs_ge_one_fire st line hN)]
  show pulseBlock (mtOf line) st.pos (endPosOf st line) (segsOf st line) ++
    [endLineOf st line] = _
  rw [pulseBlock_eq]

/-- Witness for the amended C2 at the depositing line `"G1 X1 Y0 E1\n"`
(displacement exactly 1, so the crossing count is 1). -/
theorem pulse_segment_emission_witness :
    isMotionEL (strippedOf "G1 X1 Y0 E1\n") = true ∧
    initSt.pos.E < (endPosOf initSt "G1 X1 Y0 E1\n").E ∧
    1 ≤ segsOf initSt "G1 X1 Y0 E1\n" ∧
    ((processLine initSt "G1 X1 Y0 E1\n").2.1 =
      ((List.range (segsOf initSt "G1 X1 Y0 E1\n")).flatMap fun i =>
        [moveLine (mtOf "G1 X1 Y0 E1\n")
            (initSt.pos.X + ((endPosOf initSt "G1 X1 Y0 E1\n").X - initSt.pos.X) *
              (((i + 1 : ℕ) : ℚ) / (segsOf initSt "G1 X1 Y0 E1\n" : ℚ)))
            (initSt.pos.Y + ((endPosOf initSt "G1 X1 Y0 E1\n").Y - initSt.pos.Y) *
              (((i + 1 : ℕ) : ℚ) / (segsOf initSt "G1 X1 Y0 E1\n" : ℚ)))
            (initSt.pos.E + ((endPosOf initSt "G1 X1 Y0 E1\n").E - initSt.pos.E) *
              (((i + 1 : ℕ) : ℚ) / (segsOf initSt "G1 X1 Y0 E1\n" : ℚ))),
          fanOnLine, dwellLine, fanOffLine]) ++ [endLineOf initSt "G1 X1 Y0 E1\n"] ∧
    (∀ q : ℚ, ∃ pre, fmt5c q = pre ++ '.' :: frac5 q ∧ '.' ∉ pre ∧
      (frac5 q).length = 5 ∧ ∀ c ∈ frac5 q, c.isDigit = true)) := by
  have hdisp : dispOf initSt "G1 X1 Y0 E1\n" = 1 :=
    dispOf_concrete _ _ 0 0 1 0 1 rfl rfl (by decide) (by decide)
      (by norm_num)
  have hacc : initSt.acc + dispOf initSt "G1 X1 Y0 E1\n" = 1 := by
    rw [hdisp]
    show (0 : ℝ) + 1 = 1
    norm_num
  have hN : 1 ≤ segsOf initSt "G1 X1 Y0 E1\n" :=
    ge_of_eq (segsOf_concrete_one initSt _ hacc)
  exact ⟨by decide, by decide, hN,
    pulse_segment_emission initSt "G1 X1 Y0 E1\n" (by decide) (by decide) hN⟩

/-- Claim C2 is false as frozen: on the depositing line
`"G0 X1 Y0 E1 G1\n"`, whose leading command token is `G0`, the emitted
interpolated motion line carries the code `G1`, because the source
computes `move_type = 'G1' if 'G1' in stripped else 'G0'` — a substring
test over the whole stripped line, not the original move's command
code. -/
theorem pulse_emission_command_code_cex :
    prefixL "G0".data (strippedOf "G0 X1 Y0 E1 G1\n") = true ∧
    prefixL "G1".data (strippedOf "G0 X1 Y0 E1 G1\n") = false ∧
    (processLine initSt "G0 X1 Y0 E1 G1\n").2.1.head? =
      some (moveLine "G1".data 1 0 1) ∧
    prefixL "G1".data (moveLine "G1".data 1 0 1).data = true ∧
    prefixL "G0".data (moveLine "G1".data 1 0 1).data = false := by
  refine ⟨by decide, by decide, ?_, ?_, ?_⟩
  · have hdisp : dispOf initSt "G0 X1 Y0 E1 G1\n" = 1 :=
      dispOf_concrete _ _ 0 0 1 0 1 rfl rfl (by decide) (by decide) (by norm_num)
    have hacc : initSt.acc + dispOf initSt "G0 X1 Y0 E1 G1\n" = 1 := by
      rw [hdisp]
      show (0 : ℝ) + 1 = 1
      norm_num
    have hsegs : segsOf initSt "G0 X1 Y0 E1 G1\n" = 1 := segsOf_concrete_one initSt _ hacc
    rw [processLine_fire initSt "G0 X1 Y0 E1 G1\n" (by decide) (by decide)
      (le_of_eq hacc.symm)]
    show (pulseBlock (mtOf "G0 X1 Y0 E1 G1\n") initSt.pos
        (endPosOf initSt "G0 X1 Y0 E1 G1\n") (segsOf initSt "G0 X1 Y0 E1 G1\n") ++
      [endLineOf initSt "G0 X1 Y0 E1 G1\n"]).head? = _
    rw [hsegs, pulseBlock_eq]
    simp only [show List.range 1 = [0] from rfl, List.flatMap_cons, List.flatMap_nil,
      List.append_nil, List.cons_append, List.head?_cons]
    have hmt : mtOf "G0 X1 Y0 E1 G1\n" = "G1".data := by decide
    have hX0 : initSt.pos.X = 0 := rfl
    have hY0 : initSt.pos.Y = 0 := rfl
    have hE0 : initSt.pos.E = 0 := rfl
    have hX1 : (endPosOf initSt "G0 X1 Y0 E1 G1\n").X = 1 := by decide
    have hY1 : (endPosOf initSt "G0 X1 Y0 E1 G1\n").Y = 0 := by decide
    have hE1 : (endPosOf initSt "G0 X1 Y0 E1 G1\n").E = 1 := by decide
    rw [hmt, hX0, hY0, hE0, hX1, hY1, hE1]
    norm_num
  · have he : (moveLine "G1".data 1 0 1).data =
        "G1".data ++ ([' ', 'X'] ++ (fmt5c 1 ++ ([' ', 'Y'] ++ (fmt5c 0 ++
          ([' ', 'E'] ++ (fmt5c 1 ++ ['\n'])))))) := by
      show ("G1".data ++ [' ', 'X'] ++ fmt5c 1 ++ [' ', 'Y'] ++ fmt5c 0 ++
        [' ', 'E'] ++ fmt5c 1 ++ ['\n'] : List Char) = _
      simp [List.append_assoc]
    rw [he]
    exact prefixL_append _ _
  · have he : (moveLine "G1".data 1 0 1).data =
        'G' :: '1' :: ([' ', 'X'] ++ fmt5c 1 ++ [' ', 'Y'] ++ fmt5c 0 ++
          [' ', 'E'] ++ fmt5c 1 ++ ['\n']) := by
      show ("G1".data ++ [' ', 'X'] ++ fmt5c 1 ++ [' ', 'Y'] ++ fmt5c 0 ++
        [' ', 'E'] ++ fmt5c 1 ++ ['\n'] : List Char) = _
      simp [List.append_assoc]
    rw [he]
    simp [prefixL]

/-- Claim C9: the rewritten lines of a depositing move carry only the
command code and X, Y, E — every emitted line that is a motion command
(starts with `G0` or `G1`) contains neither the feed-rate letter `F` nor
the comment character `;`, and the whole emission is unchanged under any
change of the tracked feed-rate, i.e. the feed-rate carried by the pulse
segmenter is never written to the output. -/
theorem rewritten_lines_omit_feedrate (st : St) (line : String)
    (hm : isMotionEL (strippedOf line) = true)
    (hex : st.pos.E < (endPosOf st line).E) :
    (∀ s ∈ (processLine st line).2.1,
      (prefixL "G0".data s.data = true ∨ prefixL "G1".data s.data = true) →
        'F' ∉ s.data ∧ ';' ∉ s.data) ∧
    (∀ f : Option ℚ,
      (processLine { pos := { st.pos with F := f }, acc := st.acc } line).2.1 =
        (processLine st line).2.1) := by
  constructor
  · intro s hs hpre
    by_cases h4 : TRIGGER_DISTANCE_MM ≤ st.acc + dispOf st line
    · rw [processLine_fire st line hm hex h4] at hs
      rcases List.mem_append.mp hs with h | h
      · unfold pulseBlock at h
        rw [List.mem_flatMap] at h
        obtain ⟨sg, -, hq⟩ := h
        unfold pulseQuad at hq
        simp only [List.mem_cons, List.not_mem_nil, or_false] at hq
        rcases hq with rfl | rfl | rfl | rfl
        · exact moveLine_chars _ (mtOf_cases line) _ _ _
        · exact absurd hpre (by decide)
        · exact absurd hpre (by decide)
        · exact absurd hpre (by decide)
      · simp only [List.mem_singleton] at h
        rw [h]
        exact moveLine_chars _ (mtOf_cases line) _ _ _
    · rw [processLine_nofire st line hm hex h4] at hs
      simp only [List.mem_singleton] at hs
      rw [hs]
      exact moveLine_chars _ (mtOf_cases line) _ _ _
  · intro f
    have hex' : ({ pos := { st.pos with F := f }, acc := st.acc } : St).pos.E <
        (endPosOf { pos := { st.pos with F := f }, acc := st.acc } line).E := hex
    by_cases h4 : TRIGGER_DISTANCE_MM ≤ st.acc + dispOf st line
    · have h4' : TRIGGER_DISTANCE_MM ≤
          ({ pos := { st.pos with F := f }, acc := st.acc } : St).acc +
            dispOf { pos := { st.pos with F := f }, acc := st.acc } line := h4
      rw [processLine_fire _ line hm hex' h4', processLine_fire st line hm hex h4]
      simp only [pulseBlock_eq]
      rfl
    · have h4' : ¬ TRIGGER_DISTANCE_MM ≤
          ({ pos := { st.pos with F := f }, acc := st.acc } : St).acc +
            dispOf { pos := { st.pos with F := f }, acc := st.acc } line := h4
      rw [processLine_nofire _ line hm hex' h4', processLine_nofire st line hm hex h4]
      rfl

/-- Witness for C9 at the depositing line `"G1 X0 Y0 E1\n"`. -/
theorem rewritten_lines_omit_feedrate_witness :
    isMotionEL (strippedOf "G1 X0 Y0 E1\n") = true ∧
    initSt.pos.E < (endPosOf initSt "G1 X0 Y0 E1\n").E ∧
    ((∀ s ∈ (processLine initSt "G1 X0 Y0 E1\n").2.1,
      (prefixL "G0".data s.data = true ∨ prefixL "G1".data s.data = true) →
        'F' ∉ s.data ∧ ';' ∉ s.data) ∧
    (∀ f : Option ℚ,
      (processLine { pos := { initSt.pos with F := f }, acc := initSt.acc }
          "G1 X0 Y0 E1\n").2.1 =
        (processLine initSt "G1 X0 Y0 E1\n").2.1)) :=
  ⟨by decide, by decide,
   rewritten_lines_omit_feedrate initSt "G1 X0 Y0 E1\n" (by decide) (by decide)⟩

end Pulse
